import Mathlib

/- Shallow embedding of the CustomKeypad matrix-keypad driver
   (src/CustomKeypad.h, src/CustomKeypad.cpp).

   Machine integers: `millis()` returns a 32-bit `unsigned long`; the source
   computes `now - _lastChange` and `now - _pressStart` in that type, so we
   model the subtraction as wrap-around subtraction modulo 2^32 (`usub`).
   Characters are `Char`; the reserved "no key" value `0` is `nul`.
   The pin snapshot is `pressed : Nat → Nat → Bool`: whether the switch at
   (row index, column index) is closed, i.e. whether `digitalRead(_rows[r])`
   reads HIGH while column `c` is energized.  Column pin output levels are
   tracked explicitly (`Pins`, indexed by pin number, `true` = HIGH).
   Listener dispatch is modelled as an `Option Char` event output: `some k`
   exactly when the source would invoke `_eventListener(k)` on an installed
   listener. -/

def TWO32 : Nat := 4294967296

/-- Wrap-around subtraction `a - b` on 32-bit `unsigned long` values. -/
def usub (a b : Nat) : Nat := (a + (TWO32 - b % TWO32)) % TWO32

def KEY_RELEASED : Nat := 0
def KEY_PRESSED : Nat := 1
def KEY_HOLD : Nat := 2

/-- The reserved character `0`, meaning "no key". -/
def nul : Char := Char.ofNat 0

/-- Output levels of the GPIO pins, indexed by pin number; `true` is HIGH. -/
def Pins : Type := Nat → Bool

/-- Effect of `digitalWrite(pin, lvl)` on the tracked pin levels. -/
def writePin (p : Pins) (pin : Nat) (lvl : Bool) : Pins :=
  fun q => if q = pin then lvl else p q

/-- Configuration fixed at construction: keymap (indexed `[row][col]`),
row and column pin numbers, and the matrix dimensions. -/
structure Config where
  keymap : Nat → Nat → Char
  rowPins : Nat → Nat
  colPins : Nat → Nat
  numRows : Nat
  numCols : Nat

/-- Mutable state of the debounce/hold machine
(fields `_debounceTime` .. `_holding` of class `CustomKeypad`). -/
structure KState where
  debounceTime : Nat
  holdTime : Nat
  lastChange : Nat
  pressStart : Nat
  lastKey : Char
  keyState : Nat
  holding : Bool
  deriving DecidableEq

/-- Initial state from the in-class initializers in `CustomKeypad.h`. -/
def initState : KState :=
  { debounceTime := 50, holdTime := 1000, lastChange := 0, pressStart := 0,
    lastKey := nul, keyState := KEY_RELEASED, holding := false }

/-- Inner row loop of `CustomKeypad::scanKeypad`: with column `c` energized,
return the first row index at or after `r` (with `fuel` rows left to check)
whose row pin reads HIGH. -/
def findRowAux (pressed : Nat → Nat → Bool) (c : Nat) : Nat → Nat → Option Nat
  | _, 0 => none
  | r, fuel + 1 => if pressed r c then some r else findRowAux pressed c (r + 1) fuel

/-- Column sweep of `CustomKeypad::scanKeypad`, tracking column pin levels:
drive column `c` HIGH, scan the rows; on a hit restore the column LOW and
return the keymap entry, otherwise restore LOW and advance. -/
def scanColsAux (cfg : Config) (pressed : Nat → Nat → Bool) : Nat → Nat → Pins → Char × Pins
  | _, 0, p => (nul, p)
  | c, fuel + 1, p =>
    let p1 := writePin p (cfg.colPins c) true
    match findRowAux pressed c 0 cfg.numRows with
    | some r => (cfg.keymap r c, writePin p1 (cfg.colPins c) false)
    | none => scanColsAux cfg pressed (c + 1) fuel (writePin p1 (cfg.colPins c) false)

/-- `CustomKeypad::scanKeypad`: one full sweep from column 0. -/
def scanKeypad (cfg : Config) (pressed : Nat → Nat → Bool) (p : Pins) : Char × Pins :=
  scanColsAux cfg pressed 0 cfg.numCols p

/-- The character a sweep resolves from a pin snapshot. -/
def scanChar (cfg : Config) (pressed : Nat → Nat → Bool) : Char :=
  (scanKeypad cfg pressed (fun _ => false)).1

/-- Result of one `getKey` call: the returned character, the state after the
call, and the dispatched listener event (if any). -/
structure PollResult where
  ret : Char
  st : KState
  ev : Option Char
  deriving DecidableEq

/-- State transition of `CustomKeypad::getKey`, with the scanned key and the
clock reading passed in.  Mirrors the source: the debounce test is
`now - _lastChange > _debounceTime` (strict), the hold test is
`key && !_holding && (now - _pressStart >= _holdTime)`, and `_lastKey = key`
is executed unconditionally after the transition branches. -/
def getKeyStep (s : KState) (key : Char) (now : Nat) : PollResult :=
  if key ≠ s.lastKey then
    if usub now s.lastChange > s.debounceTime then
      { ret := key,
        st := { s with
                lastChange := now
                pressStart := now
                holding := false
                keyState := (if key ≠ nul then KEY_PRESSED else KEY_RELEASED)
                lastKey := key },
        ev := some key }
    else
      { ret := key, st := { s with lastKey := key }, ev := none }
  else if key ≠ nul ∧ s.holding = false ∧ s.holdTime ≤ usub now s.pressStart then
    { ret := key,
      st := { s with keyState := KEY_HOLD, holding := true, lastKey := key },
      ev := some key }
  else
    { ret := key, st := { s with lastKey := key }, ev := none }

/-- `CustomKeypad::getKey`: scan, then run the debounce/hold transition. -/
def getKeyFull (cfg : Config) (pressed : Nat → Nat → Bool) (s : KState) (now : Nat) : PollResult :=
  getKeyStep s (scanChar cfg pressed) now

/-- `CustomKeypad::getKey` with the column pin levels tracked through the
embedded sweep. -/
def pollFull (cfg : Config) (pressed : Nat → Nat → Bool) (p : Pins) (s : KState) (now : Nat) :
    PollResult × Pins :=
  let sc := scanKeypad cfg pressed p
  (getKeyStep s sc.1 now, sc.2)

/-- Column loop of `CustomKeypad::begin`: each column pin is configured as an
output and driven LOW (only the level is tracked here). -/
def beginColsAux (cfg : Config) : Nat → Nat → Pins → Pins
  | _, 0, p => p
  | c, fuel + 1, p => beginColsAux cfg (c + 1) fuel (writePin p (cfg.colPins c) false)

/-- Column pin levels established by `CustomKeypad::begin`. -/
def beginPins (cfg : Config) (p : Pins) : Pins :=
  beginColsAux cfg 0 cfg.numCols p

/-- Inner row loop of `CustomKeypad::getKeys`: for each closed row, if
`count < maxKeys`, record the write `keysBuffer[count++] = _keymap[r][c]`
(as the pair (index, value)). -/
def getKeysRows (cfg : Config) (pressed : Nat → Nat → Bool) (c maxKeys : Nat) :
    Nat → Nat → Nat → List (Nat × Char) → Nat × List (Nat × Char)
  | _, 0, count, ws => (count, ws)
  | r, fuel + 1, count, ws =>
    if pressed r c then
      if count < maxKeys then
        getKeysRows cfg pressed c maxKeys (r + 1) fuel (count + 1)
          (ws ++ [(count, cfg.keymap r c)])
      else
        getKeysRows cfg pressed c maxKeys (r + 1) fuel count ws
    else
      getKeysRows cfg pressed c maxKeys (r + 1) fuel count ws

/-- Column loop of `CustomKeypad::getKeys`, tracking column pin levels. -/
def getKeysCols (cfg : Config) (pressed : Nat → Nat → Bool) (maxKeys : Nat) :
    Nat → Nat → Nat → List (Nat × Char) → Pins → Nat × List (Nat × Char) × Pins
  | _, 0, count, ws, p => (count, ws, p)
  | c, fuel + 1, count, ws, p =>
    let p1 := writePin p (cfg.colPins c) true
    let inner := getKeysRows cfg pressed c maxKeys 0 cfg.numRows count ws
    getKeysCols cfg pressed maxKeys (c + 1) fuel inner.1 inner.2
      (writePin p1 (cfg.colPins c) false)

/-- `CustomKeypad::getKeys`: returns (count, buffer writes, final pin levels).
Each buffer write is recorded as (index written, character stored). -/
def getKeys (cfg : Config) (pressed : Nat → Nat → Bool) (maxKeys : Nat) (p : Pins) :
    Nat × List (Nat × Char) × Pins :=
  getKeysCols cfg pressed maxKeys 0 cfg.numCols 0 [] p

/-- `CustomKeypad::getKeys` at the level of the whole driver state: the body
of `getKeys` reads and writes no debounce-machine field, so the machine state
passes through unchanged. -/
def getKeysFull (cfg : Config) (pressed : Nat → Nat → Bool) (maxKeys : Nat) (p : Pins)
    (s : KState) : (Nat × List (Nat × Char) × Pins) × KState :=
  (getKeys cfg pressed maxKeys p, s)

/-- `CustomKeypad::setDebounceTime`. -/
def setDebounceTime (s : KState) (d : Nat) : KState := { s with debounceTime := d }

/-- `CustomKeypad::setHoldTime`. -/
def setHoldTime (s : KState) (d : Nat) : KState := { s with holdTime := d }

/-- Run a sequence of `getKey` calls at the given times against a fixed pin
snapshot, counting dispatched listener events. -/
def runPolls (cfg : Config) (pressed : Nat → Nat → Bool) : KState → List Nat → KState × Nat
  | s, [] => (s, 0)
  | s, t :: ts =>
    let r := getKeyFull cfg pressed s t
    let rest := runPolls cfg pressed r.st ts
    (rest.1, (if r.ev.isSome then 1 else 0) + rest.2)

/-- States reachable from the initial state by `getKey` calls under a
monotone clock (the time index is the clock reading of the latest call). -/
inductive Reach (cfg : Config) : Nat → KState → Prop where
  | init : Reach cfg 0 initState
  | poll (t now : Nat) (s : KState) (pressed : Nat → Nat → Bool) :
      Reach cfg t s → t ≤ now → Reach cfg now (getKeyFull cfg pressed s now).st

/-- States reachable by `getKey` calls and setter calls under a monotone
clock. -/
inductive ReachS (cfg : Config) : Nat → KState → Prop where
  | init : ReachS cfg 0 initState
  | poll (t now : Nat) (s : KState) (pressed : Nat → Nat → Bool) :
      ReachS cfg t s → t ≤ now → ReachS cfg now (getKeyFull cfg pressed s now).st
  | setDebounce (t : Nat) (s : KState) (d : Nat) :
      ReachS cfg t s → ReachS cfg t (setDebounceTime s d)
  | setHold (t : Nat) (s : KState) (d : Nat) :
      ReachS cfg t s → ReachS cfg t (setHoldTime s d)

/-- Characters of the closed switches in column `c`, rows `[r, r + fuel)`,
in ascending row order (spec-side description of one column of the sweep). -/
def colCharsSeg (cfg : Config) (pressed : Nat → Nat → Bool) (c : Nat) : Nat → Nat → List Char
  | _, 0 => []
  | r, fuel + 1 =>
    if pressed r c then cfg.keymap r c :: colCharsSeg cfg pressed c (r + 1) fuel
    else colCharsSeg cfg pressed c (r + 1) fuel

/-- Closed intersections of columns `[c, c + fuel)` in sweep order. -/
def sweepSeg (cfg : Config) (pressed : Nat → Nat → Bool) : Nat → Nat → List Char
  | _, 0 => []
  | c, fuel + 1 => colCharsSeg cfg pressed c 0 cfg.numRows ++ sweepSeg cfg pressed (c + 1) fuel

/-- All closed intersections in sweep order (ascending column, then ascending
row), mapped through the keymap: the spec-side description of the sweep. -/
def sweepChars (cfg : Config) (pressed : Nat → Nat → Bool) : List Char :=
  sweepSeg cfg pressed 0 cfg.numCols

/-- Writes performed when filling a buffer of capacity `maxKeys` from
position `k` with the characters `cs` (spec-side description of the
`count < maxKeys` guarded writes of `getKeys`). -/
def fillSpec (maxKeys : Nat) : List Char → Nat → List (Nat × Char)
  | [], _ => []
  | ch :: cs, k =>
    if k < maxKeys then (k, ch) :: fillSpec maxKeys cs (k + 1) else fillSpec maxKeys cs k

/-- The 2×2 example configuration of the spec: keymap `[['1','2'],['3','4']]`. -/
def cfg2 : Config :=
  { keymap := fun r c =>
      if r = 0 then (if c = 0 then '1' else '2') else (if c = 0 then '3' else '4'),
    rowPins := fun r => 4 + r,
    colPins := fun c => 6 + c,
    numRows := 2,
    numCols := 2 }

/-- Snapshot with no key closed. -/
def pNone : Nat → Nat → Bool := fun _ _ => false

/-- Snapshot with only key (0,0) (character '1') closed. -/
def pOO : Nat → Nat → Bool := fun r c => r == 0 && c == 0

/-- Snapshot with only key (1,0) (character '3') closed. -/
def p10 : Nat → Nat → Bool := fun r c => r == 1 && c == 0

/-- Snapshot with only key (1,1) (character '4') closed. -/
def p11 : Nat → Nat → Bool := fun r c => r == 1 && c == 1

/-- Snapshot with keys (0,1) and (1,0) closed (spec scenario S4). -/
def pS4 : Nat → Nat → Bool := fun r c => (r == 0 && c == 1) || (r == 1 && c == 0)

/-- All pins LOW. -/
def pinsLow : Pins := fun _ => false

example : scanChar cfg2 pNone = nul := by decide
example : scanChar cfg2 pOO = '1' := by decide
example : scanChar cfg2 p10 = '3' := by decide
example : scanChar cfg2 p11 = '4' := by decide
example : scanChar cfg2 pS4 = '3' := by decide
example : (getKeys cfg2 pS4 4 pinsLow).1 = 2 := by decide
example : (getKeys cfg2 pS4 4 pinsLow).2.1 = [(0, '3'), (1, '2')] := by decide
example : (getKeyFull cfg2 pOO initState 100).ev = some '1' := by decide
example : (getKeyFull cfg2 pNone (getKeyFull cfg2 pOO initState 100).st 120).ret = nul := by decide
example :
    (getKeyFull cfg2 pNone (getKeyFull cfg2 pOO initState 100).st 120).st =
      { debounceTime := 50, holdTime := 1000, lastChange := 100, pressStart := 100,
        lastKey := nul, keyState := KEY_PRESSED, holding := false } := by decide

/-- C2: core poll transition semantics of `getKey`: writing `k` for the
scanned key, if `k` differs from `last_key` and `t - last_change` (32-bit) is
strictly greater than `debounce_ms`, the change is accepted: `last_change`
and `press_start` are set to `t`, `holding` is cleared, `key_state` becomes
PRESSED iff `k ≠ 0`, and the listener is dispatched with `k`; if `k` differs
but the window has not strictly elapsed, nothing changes except that
`last_key` is assigned `k`; and in every case the call returns `k` and
leaves `last_key = k`. -/
theorem getKey_transition_semantics (cfg : Config) (pressed : Nat → Nat → Bool)
    (s : KState) (t : Nat) :
    (scanChar cfg pressed ≠ s.lastKey → usub t s.lastChange > s.debounceTime →
      (getKeyFull cfg pressed s t).st =
        { s with
          lastChange := t
          pressStart := t
          holding := false
          keyState := (if scanChar cfg pressed ≠ nul then KEY_PRESSED else KEY_RELEASED)
          lastKey := scanChar cfg pressed } ∧
      (getKeyFull cfg pressed s t).ev = some (scanChar cfg pressed))
    ∧ (scanChar cfg pressed ≠ s.lastKey → ¬ usub t s.lastChange > s.debounceTime →
      (getKeyFull cfg pressed s t).st = { s with lastKey := scanChar cfg pressed } ∧
      (getKeyFull cfg pressed s t).ev = none)
    ∧ ((getKeyFull cfg pressed s t).ret = scanChar cfg pressed ∧
      (getKeyFull cfg pressed s t).st.lastKey = scanChar cfg pressed) := by
  unfold getKeyFull getKeyStep
  refine ⟨?_, ?_, ?_⟩
  · intro h1 h2
    rw [if_pos h1, if_pos h2]
    exact ⟨rfl, rfl⟩
  · intro h1 h2
    rw [if_pos h1, if_neg h2]
    exact ⟨rfl, rfl⟩
  · split_ifs <;> exact ⟨rfl, rfl⟩

/-- C2 witness: the accepted press of '1' at t = 100 on the 2×2 keypad. -/
theorem getKey_transition_semantics_witness :
    (getKeyFull cfg2 pOO initState 100).ev = some (scanChar cfg2 pOO) ∧
    (getKeyFull cfg2 pOO initState 100).ret = scanChar cfg2 pOO :=
  ⟨((getKey_transition_semantics cfg2 pOO initState 100).1 (by decide) (by decide)).2,
   ((getKey_transition_semantics cfg2 pOO initState 100).2.2).1⟩

/-- C9: duplicate press after a single bounced sample: from a state whose
accepted key is `K = last_key ≠ 0` (accepted at `last_change`), a poll whose
sweep sees no key within the debounce window dispatches nothing, and the next
poll that sees `K` again after the window accepts `K` as a brand-new press:
it dispatches the listener with `K`, sets `key_state = PRESSED`, resets
`press_start` to the poll time, and returns `K`; no release event is
dispatched in between. -/
theorem duplicate_press_after_bounce (cfg : Config) (pA pB : Nat → Nat → Bool)
    (s : KState) (t1 t2 : Nat)
    (hA : scanChar cfg pA = nul) (hB : scanChar cfg pB = s.lastKey)
    (hK : s.lastKey ≠ nul)
    (h1 : usub t1 s.lastChange ≤ s.debounceTime)
    (h2 : usub t2 s.lastChange > s.debounceTime) :
    (getKeyFull cfg pA s t1).ev = none ∧
    (getKeyFull cfg pB (getKeyFull cfg pA s t1).st t2).ev = some s.lastKey ∧
    (getKeyFull cfg pB (getKeyFull cfg pA s t1).st t2).st.keyState = KEY_PRESSED ∧
    (getKeyFull cfg pB (getKeyFull cfg pA s t1).st t2).st.pressStart = t2 ∧
    (getKeyFull cfg pB (getKeyFull cfg pA s t1).st t2).ret = s.lastKey := by
  have e1 : getKeyFull cfg pA s t1 =
      { ret := nul, st := { s with lastKey := nul }, ev := none } := by
    unfold getKeyFull getKeyStep
    rw [hA, if_pos (Ne.symm hK), if_neg (Nat.not_lt.mpr h1)]
  rw [e1]
  have e2 : getKeyFull cfg pB { s with lastKey := nul } t2 =
      { ret := s.lastKey,
        st := { s with
                lastChange := t2
                pressStart := t2
                holding := false
                keyState := KEY_PRESSED
                lastKey := s.lastKey },
        ev := some s.lastKey } := by
    unfold getKeyFull getKeyStep
    rw [hB]
    have hcond : s.lastKey ≠ ({ s with lastKey := nul } : KState).lastKey := hK
    rw [if_pos hcond, if_pos h2, if_pos hK]
  rw [e2]
  exact ⟨rfl, rfl, rfl, rfl, rfl⟩

/-- State with key '1' accepted at t = 100 (the state `getKey` reaches from
the initial state after a poll seeing (0,0) closed at t = 100). -/
def sAccepted : KState :=
  { debounceTime := 50, holdTime := 1000, lastChange := 100, pressStart := 100,
    lastKey := '1', keyState := KEY_PRESSED, holding := false }

/-- C9 witness: key '1' accepted at t = 100, bounced open at t = 120,
re-closed at t = 160 with debounce 50. -/
theorem duplicate_press_after_bounce_witness :
    (getKeyFull cfg2 pNone sAccepted 120).ev = none ∧
    (getKeyFull cfg2 pOO (getKeyFull cfg2 pNone sAccepted 120).st 160).ev =
      some sAccepted.lastKey ∧
    (getKeyFull cfg2 pOO (getKeyFull cfg2 pNone sAccepted 120).st 160).st.keyState =
      KEY_PRESSED ∧
    (getKeyFull cfg2 pOO (getKeyFull cfg2 pNone sAccepted 120).st 160).st.pressStart = 160 ∧
    (getKeyFull cfg2 pOO (getKeyFull cfg2 pNone sAccepted 120).st 160).ret =
      sAccepted.lastKey :=
  duplicate_press_after_bounce cfg2 pNone pOO sAccepted 120 160
    (by decide) (by decide) (by decide) (by decide) (by decide)

/-- The state after the bounce-suppressed poll at t = 120: `last_key` has
been overwritten with 0 while `key_state` is still PRESSED. -/
def sBounced : KState := { sAccepted with lastKey := nul }

/-- C1 counterexample: starting from the accepted press of '1' at t = 100
(dispatched, state PRESSED), the poll at t = 120 whose sweep observes no key
returns the raw scanned key 0, not the previously accepted '1': `getKey`
assigns `_lastKey = key` and returns `key` unconditionally, even when the
change is bounce-suppressed. -/
theorem bounce_return_counterexample :
    (getKeyFull cfg2 pOO initState 100).ev = some '1' ∧
    (getKeyFull cfg2 pOO initState 100).st.keyState = KEY_PRESSED ∧
    (getKeyFull cfg2 pNone (getKeyFull cfg2 pOO initState 100).st 120).ret = nul ∧
    (getKeyFull cfg2 pNone (getKeyFull cfg2 pOO initState 100).st 120).ret ≠ '1' := by
  decide

/-- C1 amended: what the code actually does on the two scenarios.  Bounce
trace: after the accepted press of '1' at t = 100, the poll at t = 120
seeing no key returns 0 with no event, leaving every field unchanged except
`last_key := 0`; the poll at t = 180 again returns 0 with no event and
`key_state` remains PRESSED (the release transition never fires because
`last_key` was already overwritten with 0 inside the debounce window).
Swap trace from t = 0: the first poll is itself suppressed (0 - 0 ≤ 50) yet
returns '1' with no event; the poll at t = 30 seeing (1,0) returns '3' with
no event; the poll at t = 100 still returns '3' but fires no listener and
leaves `press_start` at 0. -/
theorem bounce_swap_actual_behavior :
    ((getKeyFull cfg2 pOO initState 100).st = sAccepted ∧
     (getKeyFull cfg2 pOO initState 100).ev = some '1' ∧
     (getKeyFull cfg2 pNone sAccepted 120).ret = nul ∧
     (getKeyFull cfg2 pNone sAccepted 120).ev = none ∧
     (getKeyFull cfg2 pNone sAccepted 120).st = sBounced ∧
     (getKeyFull cfg2 pNone sBounced 180).ret = nul ∧
     (getKeyFull cfg2 pNone sBounced 180).ev = none ∧
     (getKeyFull cfg2 pNone sBounced 180).st.keyState = KEY_PRESSED) ∧
    ((getKeyFull cfg2 pOO initState 0).ev = none ∧
     (getKeyFull cfg2 pOO initState 0).ret = '1' ∧
     (getKeyFull cfg2 p10 (getKeyFull cfg2 pOO initState 0).st 30).ret = '3' ∧
     (getKeyFull cfg2 p10 (getKeyFull cfg2 pOO initState 0).st 30).ev = none ∧
     (getKeyFull cfg2 p10
        (getKeyFull cfg2 p10 (getKeyFull cfg2 pOO initState 0).st 30).st 100).ret = '3' ∧
     (getKeyFull cfg2 p10
        (getKeyFull cfg2 p10 (getKeyFull cfg2 pOO initState 0).st 30).st 100).ev = none ∧
     (getKeyFull cfg2 p10
        (getKeyFull cfg2 p10 (getKeyFull cfg2 pOO initState 0).st 30).st 100).st.pressStart
       = 0) := by
  decide

/-- C3 counterexample: the state reached by the polls (key '1' at t = 100,
no key at t = 120) has `key_state = PRESSED` while `last_key = 0`, so the
claimed iff fails on a reachable state. -/
theorem state_key_coherence_counterexample :
    Reach cfg2 120 sBounced ∧ sBounced.lastKey = nul ∧
    sBounced.keyState ≠ KEY_RELEASED := by
  refine ⟨?_, by decide, by decide⟩
  have r0 : Reach cfg2 0 initState := Reach.init
  have r1 : Reach cfg2 100 (getKeyFull cfg2 pOO initState 100).st :=
    Reach.poll 0 100 initState pOO r0 (by omega)
  have r2 := Reach.poll 100 120 _ pNone r1 (by omega)
  have e : (getKeyFull cfg2 pNone (getKeyFull cfg2 pOO initState 100).st 120).st =
      sBounced := by decide
  rw [e] at r2
  exact r2

/-- C3 amended: the coherence holds at the moment a change is accepted:
after any poll that accepts a change (scanned key differs from `last_key`
and the debounce window has strictly elapsed), `key_state = RELEASED` iff
`last_key = 0`, and if the accepted key is nonzero then `key_state = PRESSED`
and `last_key ≠ 0`.  (It is not an invariant of all reachable states: a
bounce-suppressed poll overwrites `last_key` without touching `key_state`.) -/
theorem accepted_change_coherence (cfg : Config) (pressed : Nat → Nat → Bool)
    (s : KState) (t : Nat)
    (hne : scanChar cfg pressed ≠ s.lastKey)
    (hdb : usub t s.lastChange > s.debounceTime) :
    ((getKeyFull cfg pressed s t).st.keyState = KEY_RELEASED ↔
      (getKeyFull cfg pressed s t).st.lastKey = nul) ∧
    (scanChar cfg pressed ≠ nul →
      (getKeyFull cfg pressed s t).st.keyState = KEY_PRESSED ∧
      (getKeyFull cfg pressed s t).st.lastKey ≠ nul) := by
  unfold getKeyFull getKeyStep
  rw [if_pos hne, if_pos hdb]
  by_cases hk : scanChar cfg pressed ≠ nul
  · rw [if_pos hk]
    refine ⟨?_, fun _ => ⟨rfl, hk⟩⟩
    show KEY_PRESSED = KEY_RELEASED ↔ scanChar cfg pressed = nul
    simp [KEY_PRESSED, KEY_RELEASED, hk]
  · rw [if_neg hk]
    push_neg at hk
    refine ⟨?_, fun h => absurd hk h⟩
    show KEY_RELEASED = KEY_RELEASED ↔ scanChar cfg pressed = nul
    simp [hk]

/-- C3 witness: the accepted press of '1' at t = 100 from the initial
state. -/
theorem accepted_change_coherence_witness :
    ((getKeyFull cfg2 pOO initState 100).st.keyState = KEY_RELEASED ↔
      (getKeyFull cfg2 pOO initState 100).st.lastKey = nul) ∧
    ((getKeyFull cfg2 pOO initState 100).st.keyState = KEY_PRESSED ∧
      (getKeyFull cfg2 pOO initState 100).st.lastKey ≠ nul) :=
  ⟨(accepted_change_coherence cfg2 pOO initState 100 (by decide) (by decide)).1,
   (accepted_change_coherence cfg2 pOO initState 100 (by decide) (by decide)).2 (by decide)⟩

/-- Hold state for key '1' with `hold_ms` lowered to 0 by the setter,
reached at t = 120. -/
def sHold4 : KState :=
  { debounceTime := 50, holdTime := 0, lastChange := 100, pressStart := 100,
    lastKey := '1', keyState := KEY_HOLD, holding := true }

/-- Holding state whose `last_key` has been overwritten with 0 by a
bounce-suppressed release, reached at t = 130. -/
def sBad4 : KState := { sHold4 with lastKey := nul }

/-- The hold state `sHold4` is reachable by polls and setter calls:
accept '1' at t = 100, `setHoldTime(0)`, hold entry at t = 120. -/
theorem reachS_sHold4 : ReachS cfg2 120 sHold4 := by
  have r0 : ReachS cfg2 0 initState := ReachS.init
  have r1 : ReachS cfg2 100 (getKeyFull cfg2 pOO initState 100).st :=
    ReachS.poll 0 100 initState pOO r0 (by omega)
  have e1 : (getKeyFull cfg2 pOO initState 100).st = sAccepted := by decide
  rw [e1] at r1
  have r2 := ReachS.setHold 100 sAccepted 0 r1
  have r3 := ReachS.poll 100 120 (setHoldTime sAccepted 0) pOO r2 (by omega)
  have e3 : (getKeyFull cfg2 pOO (setHoldTime sAccepted 0) 120).st = sHold4 := by decide
  rw [e3] at r3
  exact r3

/-- C4 counterexample: with `setHoldTime(0)`, the trace (accept '1' at
t = 100; hold entry at t = 120; bounce-suppressed release at t = 130)
reaches a state with `holding = true` but `last_key = 0`, refuting the
`last_key ≠ 0` half of the claimed invariant. -/
theorem holding_latch_counterexample :
    ReachS cfg2 130 sBad4 ∧ sBad4.holding = true ∧ sBad4.lastKey = nul := by
  refine ⟨?_, by decide, by decide⟩
  have r4 := ReachS.poll 120 130 sHold4 pNone reachS_sHold4 (by omega)
  have e4 : (getKeyFull cfg2 pNone sHold4 130).st = sBad4 := by decide
  rw [e4] at r4
  exact r4

/-- C4 amended: in every state reachable by polls and setter calls (for all
debounce and hold values), `holding = true` implies `key_state = HOLD`; the
`last_key ≠ 0` half of the claim fails (see the counterexample). -/
theorem holding_implies_hold_state (cfg : Config) (t : Nat) (s : KState)
    (h : ReachS cfg t s) (hh : s.holding = true) : s.keyState = KEY_HOLD := by
  induction h with
  | init => exact absurd hh (by decide)
  | poll t now s pressed hr hle ih =>
    unfold getKeyFull getKeyStep at hh ⊢
    split_ifs at hh ⊢ <;> simp_all [KEY_HOLD]
  | setDebounce t s d hr ih => exact ih hh
  | setHold t s d hr ih => exact ih hh

/-- C4 witness: the reachable hold state `sHold4` has `holding = true`, and
the theorem yields `key_state = HOLD` for it. -/
theorem holding_implies_hold_state_witness : sHold4.keyState = KEY_HOLD :=
  holding_implies_hold_state cfg2 120 sHold4 reachS_sHold4 (by decide)

/-- Once `holding` is set, polls whose sweep keeps seeing the accepted key
dispatch no further event and leave the state unchanged. -/
theorem runPolls_holding (cfg : Config) (pressed : Nat → Nat → Bool) :
    ∀ (ts : List Nat) (s : KState), scanChar cfg pressed = s.lastKey → s.holding = true →
      (runPolls cfg pressed s ts).2 = 0 := by
  intro ts
  induction ts with
  | nil => intro s hk hh; rfl
  | cons t ts ih =>
    intro s hk hh
    have e : getKeyFull cfg pressed s t = { ret := s.lastKey, st := s, ev := none } := by
      unfold getKeyFull getKeyStep
      rw [hk, if_neg (not_not_intro rfl), if_neg (fun hc => absurd hc.2.1 (by simp [hh]))]
    simp [runPolls, e, ih s hk hh]

/-- Over any sequence of polls whose sweep keeps seeing the nonzero accepted
key, at most one listener event (the hold entry) is dispatched. -/
theorem runPolls_sustained (cfg : Config) (pressed : Nat → Nat → Bool) :
    ∀ (ts : List Nat) (s : KState), scanChar cfg pressed = s.lastKey → s.lastKey ≠ nul →
      (runPolls cfg pressed s ts).2 ≤ 1 := by
  intro ts
  induction ts with
  | nil => intro s hk hne; simp [runPolls]
  | cons t ts ih =>
    intro s hk hne
    cases hhold : s.holding with
    | true =>
      rw [runPolls_holding cfg pressed (t :: ts) s hk hhold]
      omega
    | false =>
      by_cases hth : s.holdTime ≤ usub t s.pressStart
      · have e : getKeyFull cfg pressed s t =
            { ret := s.lastKey, st := { s with keyState := KEY_HOLD, holding := true },
              ev := some s.lastKey } := by
          unfold getKeyFull getKeyStep
          rw [hk, if_neg (not_not_intro rfl), if_pos ⟨hne, hhold, hth⟩]
        have hrest :
            (runPolls cfg pressed { s with keyState := KEY_HOLD, holding := true } ts).2 = 0 :=
          runPolls_holding cfg pressed ts _ hk rfl
        simp [runPolls, e, hrest]
      · have e : getKeyFull cfg pressed s t = { ret := s.lastKey, st := s, ev := none } := by
          unfold getKeyFull getKeyStep
          rw [hk, if_neg (not_not_intro rfl), if_neg (fun hc => absurd hc.2.2 hth)]
        simp only [runPolls, e]
        simpa using ih s hk hne

/-- C5: hold entry and exclusivity.  If the sweep sees the nonzero accepted
`last_key` again: (i) when `holding` is clear and `t - press_start ≥ hold_ms`
(note the `≥`), the poll sets `key_state = HOLD` and `holding = true` and
dispatches exactly one event with that key; (ii) when `holding` is clear and
the threshold has not been reached, nothing changes and nothing is
dispatched; (iii) when `holding` is already set, nothing changes and nothing
is dispatched; and (iv) over any sequence of polls sustaining the pressed
key, at most one event (the hold entry) is dispatched. -/
theorem hold_entry_and_exclusivity (cfg : Config) (pressed : Nat → Nat → Bool)
    (s : KState) (t : Nat) :
    (scanChar cfg pressed = s.lastKey → s.lastKey ≠ nul → s.holding = false →
      s.holdTime ≤ usub t s.pressStart →
      (getKeyFull cfg pressed s t).st = { s with keyState := KEY_HOLD, holding := true } ∧
      (getKeyFull cfg pressed s t).ev = some s.lastKey)
    ∧ (scanChar cfg pressed = s.lastKey → s.lastKey ≠ nul → s.holding = false →
      usub t s.pressStart < s.holdTime →
      (getKeyFull cfg pressed s t).st = s ∧ (getKeyFull cfg pressed s t).ev = none)
    ∧ (scanChar cfg pressed = s.lastKey → s.holding = true →
      (getKeyFull cfg pressed s t).st = s ∧ (getKeyFull cfg pressed s t).ev = none)
    ∧ (scanChar cfg pressed = s.lastKey → s.lastKey ≠ nul →
      ∀ ts : List Nat, (runPolls cfg pressed s ts).2 ≤ 1) := by
  refine ⟨?_, ?_, ?_, ?_⟩
  · intro hk hne hh hth
    unfold getKeyFull getKeyStep
    rw [hk, if_neg (not_not_intro rfl), if_pos ⟨hne, hh, hth⟩]
    exact ⟨rfl, rfl⟩
  · intro hk hne hh hlt
    unfold getKeyFull getKeyStep
    rw [hk, if_neg (not_not_intro rfl), if_neg (fun hc => absurd hc.2.2 (Nat.not_le.mpr hlt))]
    exact ⟨rfl, rfl⟩
  · intro hk hh
    unfold getKeyFull getKeyStep
    rw [hk, if_neg (not_not_intro rfl), if_neg (fun hc => absurd hc.2.1 (by simp [hh]))]
    exact ⟨rfl, rfl⟩
  · intro hk hne ts
    exact runPolls_sustained cfg pressed ts s hk hne

/-- State with key '4' accepted at t = 0 (spec scenario S3's press). -/
def sHeld : KState :=
  { debounceTime := 50, holdTime := 1000, lastChange := 0, pressStart := 0,
    lastKey := '4', keyState := KEY_PRESSED, holding := false }

/-- C5 witness: key '4' held from t = 0; the boundary poll at t = 1000
enters HOLD and dispatches once, and the poll sequence 500, 1000, 1500
dispatches at most one event. -/
theorem hold_entry_and_exclusivity_witness :
    (getKeyFull cfg2 p11 sHeld 1000).st = { sHeld with keyState := KEY_HOLD, holding := true } ∧
    (getKeyFull cfg2 p11 sHeld 1000).ev = some sHeld.lastKey ∧
    (runPolls cfg2 p11 sHeld [500, 1000, 1500]).2 ≤ 1 :=
  ⟨((hold_entry_and_exclusivity cfg2 p11 sHeld 1000).1
      (by decide) (by decide) (by decide) (by decide)).1,
   ((hold_entry_and_exclusivity cfg2 p11 sHeld 1000).1
      (by decide) (by decide) (by decide) (by decide)).2,
   (hold_entry_and_exclusivity cfg2 p11 sHeld 1000).2.2.2
      (by decide) (by decide) [500, 1000, 1500]⟩

/-- Each step of `begin`'s column loop only writes LOW, so LOW pins stay
LOW. -/
theorem beginColsAux_preserves_low (cfg : Config) :
    ∀ (fuel c0 : Nat) (p : Pins) (q : Nat), p q = false → beginColsAux cfg c0 fuel p q = false := by
  intro fuel
  induction fuel with
  | zero => intro c0 p q h; exact h
  | succ fuel ih =>
    intro c0 p q h
    simp only [beginColsAux]
    apply ih
    by_cases hq : q = cfg.colPins c0
    · simp [writePin, hq]
    · simp [writePin, hq, h]

/-- `begin` drives every column pin in the processed range LOW. -/
theorem beginColsAux_sets_low (cfg : Config) :
    ∀ (fuel c0 : Nat) (p : Pins) (j : Nat), c0 ≤ j → j < c0 + fuel →
      beginColsAux cfg c0 fuel p (cfg.colPins j) = false := by
  intro fuel
  induction fuel with
  | zero => intro c0 p j h1 h2; omega
  | succ fuel ih =>
    intro c0 p j h1 h2
    by_cases he : j = c0
    · subst he
      simp only [beginColsAux]
      apply beginColsAux_preserves_low
      simp [writePin]
    · simp only [beginColsAux]
      exact ih (c0 + 1) _ j (by omega) (by omega)

/-- The column sweep of `scanKeypad` leaves all column pins LOW if they were
LOW on entry: each column is driven HIGH and restored LOW before the sweep
advances or returns. -/
theorem scanColsAux_pins_low (cfg : Config) (pressed : Nat → Nat → Bool) :
    ∀ (fuel c0 : Nat) (p : Pins),
      (∀ j, j < cfg.numCols → p (cfg.colPins j) = false) →
      ∀ j, j < cfg.numCols → (scanColsAux cfg pressed c0 fuel p).2 (cfg.colPins j) = false := by
  intro fuel
  induction fuel with
  | zero => intro c0 p hp j hj; exact hp j hj
  | succ fuel ih =>
    intro c0 p hp j hj
    have hstep : ∀ j, j < cfg.numCols →
        writePin (writePin p (cfg.colPins c0) true) (cfg.colPins c0) false (cfg.colPins j) =
          false := by
      intro i hi
      by_cases h : cfg.colPins i = cfg.colPins c0
      · simp [writePin, h]
      · simp [writePin, h, hp i hi]
    cases hfind : findRowAux pressed c0 0 cfg.numRows with
    | some r =>
      simp only [scanColsAux, hfind]
      exact hstep j hj
    | none =>
      simp only [scanColsAux, hfind]
      exact ih (c0 + 1) _ hstep j hj

/-- The column sweep of `getKeys` leaves all column pins LOW if they were
LOW on entry. -/
theorem getKeysCols_pins_low (cfg : Config) (pressed : Nat → Nat → Bool) (maxKeys : Nat) :
    ∀ (fuel c0 count : Nat) (ws : List (Nat × Char)) (p : Pins),
      (∀ j, j < cfg.numCols → p (cfg.colPins j) = false) →
      ∀ j, j < cfg.numCols →
        (getKeysCols cfg pressed maxKeys c0 fuel count ws p).2.2 (cfg.colPins j) = false := by
  intro fuel
  induction fuel with
  | zero => intro c0 count ws p hp j hj; exact hp j hj
  | succ fuel ih =>
    intro c0 count ws p hp j hj
    have hstep : ∀ j, j < cfg.numCols →
        writePin (writePin p (cfg.colPins c0) true) (cfg.colPins c0) false (cfg.colPins j) =
          false := by
      intro i hi
      by_cases h : cfg.colPins i = cfg.colPins c0
      · simp [writePin, h]
      · simp [writePin, h, hp i hi]
    simp only [getKeysCols]
    exact ih (c0 + 1) _ _ _ hstep j hj

/-- C6: post-scan pin state.  `begin` drives every column pin LOW, and
assuming every column pin is LOW on entry, both a `getKey` poll (including
its early-return path when a closed key is found mid-sweep) and a `getKeys`
sweep leave every column pin LOW on exit. -/
theorem column_pins_low_after_scan (cfg : Config) (pressed : Nat → Nat → Bool)
    (p q : Pins) (s : KState) (t maxKeys : Nat)
    (hp : ∀ c, c < cfg.numCols → p (cfg.colPins c) = false) :
    (∀ c, c < cfg.numCols → beginPins cfg q (cfg.colPins c) = false) ∧
    (∀ c, c < cfg.numCols → (pollFull cfg pressed p s t).2 (cfg.colPins c) = false) ∧
    (∀ c, c < cfg.numCols → (getKeys cfg pressed maxKeys p).2.2 (cfg.colPins c) = false) := by
  refine ⟨?_, ?_, ?_⟩
  · intro c hc
    exact beginColsAux_sets_low cfg cfg.numCols 0 q c (Nat.zero_le c) (by omega)
  · intro c hc
    show (scanColsAux cfg pressed 0 cfg.numCols p).2 (cfg.colPins c) = false
    exact scanColsAux_pins_low cfg pressed cfg.numCols 0 p hp c hc
  · intro c hc
    exact getKeysCols_pins_low cfg pressed maxKeys cfg.numCols 0 0 [] p hp c hc

/-- C6 witness: on the 2×2 keypad with all pins LOW, `begin`, a poll that
early-returns on key (0,0), and a `getKeys` sweep with two closed keys all
leave the column pins LOW. -/
theorem column_pins_low_after_scan_witness :
    beginPins cfg2 pinsLow (cfg2.colPins 0) = false ∧
    (pollFull cfg2 pOO pinsLow initState 100).2 (cfg2.colPins 0) = false ∧
    (pollFull cfg2 pOO pinsLow initState 100).2 (cfg2.colPins 1) = false ∧
    (getKeys cfg2 pS4 4 pinsLow).2.2 (cfg2.colPins 1) = false :=
  ⟨(column_pins_low_after_scan cfg2 pOO pinsLow pinsLow initState 100 4
      (fun _ _ => rfl)).1 0 (by decide),
   (column_pins_low_after_scan cfg2 pOO pinsLow pinsLow initState 100 4
      (fun _ _ => rfl)).2.1 0 (by decide),
   (column_pins_low_after_scan cfg2 pOO pinsLow pinsLow initState 100 4
      (fun _ _ => rfl)).2.1 1 (by decide),
   (column_pins_low_after_scan cfg2 pS4 pinsLow pinsLow initState 100 4
      (fun _ _ => rfl)).2.2 1 (by decide)⟩

/-- The row loop finds nothing on a range of open rows. -/
theorem findRowAux_eq_none (pressed : Nat → Nat → Bool) (c : Nat) :
    ∀ (fuel r0 : Nat), (∀ i, r0 ≤ i → i < r0 + fuel → pressed i c = false) →
      findRowAux pressed c r0 fuel = none := by
  intro fuel
  induction fuel with
  | zero => intro r0 h; rfl
  | succ fuel ih =>
    intro r0 h
    have h0 : pressed r0 c = false := h r0 (Nat.le_refl r0) (by omega)
    simp only [findRowAux, h0]
    simp only [Bool.false_eq_true, if_false]
    exact ih (r0 + 1) (fun i hi1 hi2 => h i (by omega) (by omega))

/-- The row loop returns the least closed row in its range. -/
theorem findRowAux_eq_some (pressed : Nat → Nat → Bool) (c : Nat) :
    ∀ (fuel r0 r : Nat), r0 ≤ r → r < r0 + fuel → pressed r c = true →
      (∀ i, r0 ≤ i → i < r → pressed i c = false) →
      findRowAux pressed c r0 fuel = some r := by
  intro fuel
  induction fuel with
  | zero => intro r0 r h1 h2 h3 h4; omega
  | succ fuel ih =>
    intro r0 r h1 h2 h3 h4
    by_cases he : r0 = r
    · subst he
      simp [findRowAux, h3]
    · have h0 : pressed r0 c = false := h4 r0 (Nat.le_refl r0) (by omega)
      simp only [findRowAux, h0, Bool.false_eq_true, if_false]
      exact ih (r0 + 1) r (by omega) (by omega) h3 (fun i hi1 hi2 => h4 i (by omega) hi2)

/-- A column sweep over columns whose row loops all find nothing returns the
reserved 0. -/
theorem scanColsAux_char_none (cfg : Config) (pressed : Nat → Nat → Bool) :
    ∀ (fuel c0 : Nat) (p : Pins),
      (∀ j, c0 ≤ j → j < c0 + fuel → findRowAux pressed j 0 cfg.numRows = none) →
      (scanColsAux cfg pressed c0 fuel p).1 = nul := by
  intro fuel
  induction fuel with
  | zero => intro c0 p h; rfl
  | succ fuel ih =>
    intro c0 p h
    have h0 : findRowAux pressed c0 0 cfg.numRows = none := h c0 (Nat.le_refl c0) (by omega)
    simp only [scanColsAux, h0]
    exact ih (c0 + 1) _ (fun j hj1 hj2 => h j (by omega) (by omega))

/-- The column sweep returns the keymap entry of the first column whose row
loop hits, at the row it hits. -/
theorem scanColsAux_char_some (cfg : Config) (pressed : Nat → Nat → Bool) :
    ∀ (fuel c0 : Nat) (p : Pins) (c r : Nat), c0 ≤ c → c < c0 + fuel →
      (∀ j, c0 ≤ j → j < c → findRowAux pressed j 0 cfg.numRows = none) →
      findRowAux pressed c 0 cfg.numRows = some r →
      (scanColsAux cfg pressed c0 fuel p).1 = cfg.keymap r c := by
  intro fuel
  induction fuel with
  | zero => intro c0 p c r h1 h2 h3 h4; omega
  | succ fuel ih =>
    intro c0 p c r h1 h2 h3 h4
    by_cases he : c0 = c
    · subst he
      simp only [scanColsAux, h4]
    · have h0 : findRowAux pressed c0 0 cfg.numRows = none := h3 c0 (Nat.le_refl c0) (by omega)
      simp only [scanColsAux, h0]
      exact ih (c0 + 1) _ c r (by omega) (by omega) (fun j hj1 hj2 => h3 j (by omega) hj2) h4

/-- The row loop reads only in-range switches. -/
theorem findRowAux_congr (p q : Nat → Nat → Bool) (c : Nat) :
    ∀ (fuel r0 : Nat), (∀ i, i < r0 + fuel → p i c = q i c) →
      findRowAux p c r0 fuel = findRowAux q c r0 fuel := by
  intro fuel
  induction fuel with
  | zero => intro r0 h; rfl
  | succ fuel ih =>
    intro r0 h
    simp only [findRowAux, h r0 (by omega)]
    by_cases hq : q r0 c = true
    · simp [hq]
    · rw [if_neg hq, if_neg hq]
      exact ih (r0 + 1) (fun i hi => h i (by omega))

/-- The column sweep reads only in-range switches. -/
theorem scanColsAux_congr (cfg : Config) (p q : Nat → Nat → Bool) :
    ∀ (fuel c0 : Nat) (pin : Pins),
      (∀ i j, i < cfg.numRows → c0 ≤ j → j < c0 + fuel → p i j = q i j) →
      scanColsAux cfg p c0 fuel pin = scanColsAux cfg q c0 fuel pin := by
  intro fuel
  induction fuel with
  | zero => intro c0 pin h; rfl
  | succ fuel ih =>
    intro c0 pin h
    have hf : findRowAux p c0 0 cfg.numRows = findRowAux q c0 0 cfg.numRows :=
      findRowAux_congr p q c0 cfg.numRows 0
        (fun i hi => h i c0 (by omega) (Nat.le_refl c0) (by omega))
    simp only [scanColsAux, hf]
    cases hq : findRowAux q c0 0 cfg.numRows with
    | some r => rfl
    | none => exact ih (c0 + 1) _ (fun i j hi hj1 hj2 => h i j hi (by omega) (by omega))

/-- C7: scan selection and determinism.  `scanKeypad` is a function of the
pin snapshot restricted to the configured dimensions: if no in-range
intersection is closed it returns 0; if some are closed it returns
`keymap[r][c]` for the closed pair (r,c) that is smallest in the ascending
column-then-row sweep order; and two snapshots that agree on all in-range
intersections yield the same character. -/
theorem scan_selection (cfg : Config) (p q : Nat → Nat → Bool) :
    ((∀ r c, r < cfg.numRows → c < cfg.numCols → p r c = false) → scanChar cfg p = nul)
    ∧ (∀ r c, r < cfg.numRows → c < cfg.numCols → p r c = true →
        (∀ r2 c2, r2 < cfg.numRows → c2 < cfg.numCols → p r2 c2 = true →
          c < c2 ∨ (c = c2 ∧ r ≤ r2)) →
        scanChar cfg p = cfg.keymap r c)
    ∧ ((∀ r c, r < cfg.numRows → c < cfg.numCols → p r c = q r c) →
        scanChar cfg p = scanChar cfg q) := by
  refine ⟨?_, ?_, ?_⟩
  · intro h
    show (scanColsAux cfg p 0 cfg.numCols (fun _ => false)).1 = nul
    apply scanColsAux_char_none
    intro j hj1 hj2
    apply findRowAux_eq_none
    intro i hi1 hi2
    exact h i j (by omega) (by omega)
  · intro r c hr hc hp hmin
    show (scanColsAux cfg p 0 cfg.numCols (fun _ => false)).1 = cfg.keymap r c
    apply scanColsAux_char_some cfg p cfg.numCols 0 (fun _ => false) c r
      (Nat.zero_le c) (by omega)
    · intro j hj1 hj2
      apply findRowAux_eq_none
      intro i hi1 hi2
      cases hb : p i j with
      | false => rfl
      | true =>
        rcases hmin i j (by omega) (by omega) hb with h1 | ⟨h1, h2⟩ <;> omega
    · apply findRowAux_eq_some p c cfg.numRows 0 r (Nat.zero_le r) (by omega) hp
      intro i hi1 hi2
      cases hb : p i c with
      | false => rfl
      | true =>
        rcases hmin i c (by omega) hc hb with h1 | ⟨h1, h2⟩ <;> omega
  · intro h
    show (scanColsAux cfg p 0 cfg.numCols (fun _ => false)).1 =
      (scanColsAux cfg q 0 cfg.numCols (fun _ => false)).1
    rw [scanColsAux_congr cfg p q cfg.numCols 0 _
      (fun i j hi hj1 hj2 => h i j hi (by omega))]

/-- C7 witness: on the 2×2 keypad, the all-open snapshot scans to 0, and the
snapshot with (0,1) and (1,0) closed scans to keymap[1][0] = '3', the
smallest closed pair in column-then-row order. -/
theorem scan_selection_witness :
    scanChar cfg2 pNone = nul ∧ scanChar cfg2 pS4 = cfg2.keymap 1 0 := by
  constructor
  · exact (scan_selection cfg2 pNone pNone).1 (fun _ _ _ _ => rfl)
  · refine (scan_selection cfg2 pS4 pS4).2.1 1 0 (by decide) (by decide) (by decide) ?_
    intro r2 c2 hr hc hp
    have hr2 : r2 < 2 := hr
    have hc2 : c2 < 2 := hc
    interval_cases r2 <;> interval_cases c2 <;> revert hp <;> decide

/-- Once the buffer position has reached capacity, no further write occurs. -/
theorem fillSpec_stuck (maxKeys : Nat) :
    ∀ (cs : List Char) (k : Nat), ¬ k < maxKeys → fillSpec maxKeys cs k = [] := by
  intro cs
  induction cs with
  | nil => intro k h; rfl
  | cons ch cs ih =>
    intro k h
    simp only [fillSpec, if_neg h]
    exact ih k h

/-- Buffer filling distributes over concatenation of the candidate list. -/
theorem fillSpec_append (maxKeys : Nat) :
    ∀ (xs ys : List Char) (k : Nat),
      fillSpec maxKeys (xs ++ ys) k =
        fillSpec maxKeys xs k ++ fillSpec maxKeys ys (k + (fillSpec maxKeys xs k).length) := by
  intro xs
  induction xs with
  | nil => intro ys k; simp [fillSpec]
  | cons ch xs ih =>
    intro ys k
    by_cases h : k < maxKeys
    · simp only [List.cons_append, fillSpec, if_pos h, List.append_eq, ih ys (k + 1),
        List.length_cons]
      have e : (k + 1) + (fillSpec maxKeys xs (k + 1)).length =
          k + ((fillSpec maxKeys xs (k + 1)).length + 1) := by omega
      rw [e]
    · simp only [List.cons_append, fillSpec, if_neg h]
      exact ih ys k

/-- The characters written are the first `maxKeys - k` candidates, in
order. -/
theorem fillSpec_map_snd (maxKeys : Nat) :
    ∀ (cs : List Char) (k : Nat),
      (fillSpec maxKeys cs k).map Prod.snd = cs.take (maxKeys - k) := by
  intro cs
  induction cs with
  | nil => intro k; simp [fillSpec]
  | cons ch cs ih =>
    intro k
    by_cases h : k < maxKeys
    · have e : maxKeys - k = (maxKeys - (k + 1)) + 1 := by omega
      simp only [fillSpec, if_pos h, List.map_cons, ih (k + 1), e, List.take_succ_cons]
    · have e : maxKeys - k = 0 := by omega
      simp [fillSpec, if_neg h, fillSpec_stuck maxKeys cs k h, e]

/-- Every write produced by buffer filling targets an index below the
capacity. -/
theorem fillSpec_mem (maxKeys : Nat) :
    ∀ (cs : List Char) (k : Nat) (e : Nat × Char),
      e ∈ fillSpec maxKeys cs k → e.1 < maxKeys := by
  intro cs
  induction cs with
  | nil => intro k e h; simp [fillSpec] at h
  | cons ch cs ih =>
    intro k e h
    by_cases hk : k < maxKeys
    · simp only [fillSpec, if_pos hk, List.mem_cons] at h
      rcases h with h | h
      · rw [h]; exact hk
      · exact ih (k + 1) e h
    · simp only [fillSpec, if_neg hk] at h
      exact ih k e h

/-- The inner row loop of `getKeys` appends exactly the guarded writes of
the closed rows of its column, advancing the count accordingly. -/
theorem getKeysRows_spec (cfg : Config) (pressed : Nat → Nat → Bool) (c maxKeys : Nat) :
    ∀ (fuel r0 count : Nat) (ws : List (Nat × Char)),
      getKeysRows cfg pressed c maxKeys r0 fuel count ws =
        (count + (fillSpec maxKeys (colCharsSeg cfg pressed c r0 fuel) count).length,
         ws ++ fillSpec maxKeys (colCharsSeg cfg pressed c r0 fuel) count) := by
  intro fuel
  induction fuel with
  | zero => intro r0 count ws; simp [getKeysRows, colCharsSeg, fillSpec]
  | succ fuel ih =>
    intro r0 count ws
    simp only [getKeysRows, colCharsSeg]
    by_cases hp : pressed r0 c = true
    · rw [if_pos hp, if_pos hp]
      by_cases hc : count < maxKeys
      · rw [if_pos hc, ih (r0 + 1) (count + 1) (ws ++ [(count, cfg.keymap r0 c)])]
        simp only [fillSpec, if_pos hc, List.length_cons, List.append_assoc,
          List.singleton_append, Prod.mk.injEq]
        exact ⟨by omega, trivial⟩
      · rw [if_neg hc, ih (r0 + 1) count ws]
        simp only [fillSpec, if_neg hc]
    · rw [if_neg hp, if_neg hp, ih (r0 + 1) count ws]

/-- The count returned by the column loop of `getKeys`. -/
theorem getKeysCols_count (cfg : Config) (pressed : Nat → Nat → Bool) (maxKeys : Nat) :
    ∀ (fuel c0 count : Nat) (ws : List (Nat × Char)) (p : Pins),
      (getKeysCols cfg pressed maxKeys c0 fuel count ws p).1 =
        count + (fillSpec maxKeys (sweepSeg cfg pressed c0 fuel) count).length := by
  intro fuel
  induction fuel with
  | zero => intro c0 count ws p; simp [getKeysCols, sweepSeg, fillSpec]
  | succ fuel ih =>
    intro c0 count ws p
    simp only [getKeysCols, getKeysRows_spec cfg pressed c0 maxKeys, sweepSeg,
      fillSpec_append, List.length_append]
    rw [ih]
    omega

/-- The writes performed by the column loop of `getKeys`. -/
theorem getKeysCols_writes (cfg : Config) (pressed : Nat → Nat → Bool) (maxKeys : Nat) :
    ∀ (fuel c0 count : Nat) (ws : List (Nat × Char)) (p : Pins),
      (getKeysCols cfg pressed maxKeys c0 fuel count ws p).2.1 =
        ws ++ fillSpec maxKeys (sweepSeg cfg pressed c0 fuel) count := by
  intro fuel
  induction fuel with
  | zero => intro c0 count ws p; simp [getKeysCols, sweepSeg, fillSpec]
  | succ fuel ih =>
    intro c0 count ws p
    simp only [getKeysCols, getKeysRows_spec cfg pressed c0 maxKeys, sweepSeg,
      fillSpec_append]
    rw [ih]
    simp [List.append_assoc]

/-- C8: `getKeys` records the closed intersections in sweep order (ascending
column, then ascending row), up to `maxKeys`, and returns the number
written; on the 2×2 keymap with (0,1) and (1,0) closed it returns 2 with
buffer writes '3' at index 0 (column 0) and '2' at index 1 (column 1); and
the call leaves the debounce state machine untouched. -/
theorem scan_all_sweep_order (cfg : Config) (pressed : Nat → Nat → Bool) (maxKeys : Nat)
    (p : Pins) :
    ((getKeys cfg pressed maxKeys p).2.1.map Prod.snd = (sweepChars cfg pressed).take maxKeys)
    ∧ ((getKeys cfg pressed maxKeys p).1 = (getKeys cfg pressed maxKeys p).2.1.length)
    ∧ ((getKeys cfg2 pS4 4 pinsLow).1 = 2 ∧
       (getKeys cfg2 pS4 4 pinsLow).2.1 = [(0, '3'), (1, '2')])
    ∧ (∀ s : KState, (getKeysFull cfg pressed maxKeys p s).2 = s) := by
  refine ⟨?_, ?_, by decide, fun s => rfl⟩
  · unfold getKeys sweepChars
    rw [getKeysCols_writes cfg pressed maxKeys cfg.numCols 0 0 [] p]
    simp [fillSpec_map_snd]
  · unfold getKeys
    rw [getKeysCols_count cfg pressed maxKeys cfg.numCols 0 0 [] p,
      getKeysCols_writes cfg pressed maxKeys cfg.numCols 0 0 [] p]
    simp

/-- C10: every write `getKeys` performs lands strictly below `maxKeys`, the
returned count is at most `maxKeys`, and the count equals the number of
writes performed. -/
theorem scan_all_buffer_bound (cfg : Config) (pressed : Nat → Nat → Bool) (maxKeys : Nat)
    (p : Pins) :
    (∀ e, e ∈ (getKeys cfg pressed maxKeys p).2.1 → e.1 < maxKeys)
    ∧ (getKeys cfg pressed maxKeys p).1 ≤ maxKeys
    ∧ (getKeys cfg pressed maxKeys p).1 = (getKeys cfg pressed maxKeys p).2.1.length := by
  refine ⟨?_, ?_, ?_⟩
  · intro e he
    unfold getKeys at he
    rw [getKeysCols_writes cfg pressed maxKeys cfg.numCols 0 0 [] p] at he
    simp only [List.nil_append] at he
    exact fillSpec_mem maxKeys _ 0 e he
  · unfold getKeys
    rw [getKeysCols_count cfg pressed maxKeys cfg.numCols 0 0 [] p]
    have h1 := congrArg List.length
      (fillSpec_map_snd maxKeys (sweepSeg cfg pressed 0 cfg.numCols) 0)
    rw [List.length_map] at h1
    simp only [List.length_take] at h1
    omega
  · unfold getKeys
    rw [getKeysCols_count cfg pressed maxKeys cfg.numCols 0 0 [] p,
      getKeysCols_writes cfg pressed maxKeys cfg.numCols 0 0 [] p]
    simp

/-- C10 witness: on the 2×2 keypad with (0,1) and (1,0) closed and
capacity 4, the recorded write (0, '3') lands below the capacity and the
count 2 is at most 4. -/
theorem scan_all_buffer_bound_witness :
    ((0, '3') : Nat × Char).1 < 4 ∧ (getKeys cfg2 pS4 4 pinsLow).1 ≤ 4 :=
  ⟨(scan_all_buffer_bound cfg2 pS4 4 pinsLow).1 (0, '3') (by decide),
   (scan_all_buffer_bound cfg2 pS4 4 pinsLow).2.1⟩
